import Mathlib

/-!
# Link analytics engine: shallow embedding

A shallow embedding of `src/Link_analytics.py`: the co-occurrence graph
builder (`build_location_graph`), the network metrics the script obtains from
its graph library (`degree_centrality`, `betweenness_centrality` with the
library's default normalisation), risk scoring, cluster summarisation, spread
path detection, and report assembly (`generate_link_analysis_report`).

DataFrames are modelled as lists of records; a record whose three required
fields are all present is a `Record`, an arbitrary row is a `RawRecord` with
optional fields.  Python's stable `list.sort(key=…, reverse=True)` is
modelled by `List.insertionSort` with the "key not smaller" relation, which
is a stable descending sort.  The community-detection call
(`louvain_communities`, randomised by default) is modelled as an explicit
parameter of the analysis: every result below is parametric in the partition
that call returned.
-/

namespace LinkAnalytics

/-- One incident record with all three required fields present
(`location`, `disaster_type`, `alert_level`). -/
structure Record where
  location : String
  disaster_type : String
  alert_level : ℚ
deriving DecidableEq

/-- A raw input row: any of the three required fields may be absent
(pandas `NaN` / missing key). -/
structure RawRecord where
  location : Option String
  disaster_type : Option String
  alert_level : Option ℚ
deriving DecidableEq

/-- Attribute dictionary of one graph edge: `weight` and the set
`disasters` of disaster types (a list without duplicates). -/
structure EdgeData where
  weight : Nat
  disasters : List String
deriving DecidableEq

/-- An undirected graph in the style of the script's graph library:
an insertion-ordered node list and a list of attributed edges. -/
structure Graph (α : Type) where
  nodes : List α
  edges : List (α × α × EdgeData)
deriving DecidableEq

variable {α : Type} [DecidableEq α] {β : Type}

/-- Worker for `uniqueFirst`: drop the values already seen. -/
def uniqueFirstAux (seen : List α) : List α → List α
  | [] => []
  | x :: xs => if x ∈ seen then uniqueFirstAux seen xs else x :: uniqueFirstAux (x :: seen) xs

/-- `pandas.Series.unique`: the distinct values in order of first
appearance. -/
def uniqueFirst (l : List α) : List α := uniqueFirstAux [] l

/-- The ordered pairs produced by `for i in range(n): for j in range(i+1, n)`
over a list. -/
def allPairs : List α → List (α × α)
  | [] => []
  | x :: xs => xs.map (fun y => (x, y)) ++ allPairs xs

/-- The unordered pair `{u, v}` coincides with the unordered pair `{a, b}`. -/
def samePair (u v a b : α) : Prop := (u = a ∧ v = b) ∨ (u = b ∧ v = a)

instance (u v a b : α) : Decidable (samePair u v a b) :=
  inferInstanceAs (Decidable (_ ∨ _))

/-- `G.has_edge(u, v)`. -/
def hasEdge (G : Graph α) (u v : α) : Prop :=
  ∃ e ∈ G.edges, samePair u v e.1 e.2.1

instance (G : Graph α) (u v : α) : Decidable (hasEdge G u v) :=
  List.decidableBEx _ _

/-- `G[u][v]['weight'] += 1; G[u][v]['disasters'].add(d)`: bump the weight of
every edge joining `u` and `v` and add `d` to its disaster set (a no-op on
the set when `d` is already present, as for a Python `set`). -/
def updateEdge (G : Graph α) (u v : α) (d : String) : Graph α :=
  { G with
    edges := G.edges.map (fun e =>
      if samePair u v e.1 e.2.1 then
        (e.1, e.2.1,
          ⟨e.2.2.weight + 1,
           if d ∈ e.2.2.disasters then e.2.2.disasters
           else e.2.2.disasters ++ [d]⟩)
      else e) }

/-- `G.add_edge(u, v, weight=1, disasters={d})`. -/
def addEdge (G : Graph α) (u v : α) (d : String) : Graph α :=
  { G with edges := G.edges ++ [(u, v, ⟨1, [d]⟩)] }

/-- Process one location pair for disaster type `d`: update the existing
edge, or create a fresh one of weight 1. -/
def processPair (d : String) (G : Graph α) (p : α × α) : Graph α :=
  if hasEdge G p.1 p.2 then updateEdge G p.1 p.2 d else addEdge G p.1 p.2 d

/-- One iteration of the outer loop of `build_location_graph`: connect all
distinct locations affected by disaster type `d`. -/
def processDisaster (df : List Record) (G : Graph String) (d : String) : Graph String :=
  let affected := uniqueFirst ((df.filter (fun r => decide (r.disaster_type = d))).map (fun r => r.location))
  if 1 < affected.length then (allPairs affected).foldl (processPair d) G else G

/-- `build_location_graph(df)`: one node per distinct location, then a
clique per disaster type over the locations it affects. -/
def build_location_graph (df : List Record) : Graph String :=
  (uniqueFirst (df.map (fun r => r.disaster_type))).foldl
    (processDisaster df)
    ⟨uniqueFirst (df.map (fun r => r.location)), []⟩

/-- The neighbours of `v`: the nodes joined to `v` by some edge. -/
def neighbors (G : Graph α) (v : α) : List α :=
  G.nodes.filter (fun u => decide (hasEdge G v u))

/-- Unweighted degree of `v`. -/
def degree (G : Graph α) (v : α) : Nat := (neighbors G v).length

/-- `networkx.degree_centrality`: `degree(v) / (|V| - 1)`, except that a
graph with at most one node assigns every node centrality 1. -/
def degree_centrality (G : Graph α) (v : α) : ℚ :=
  if G.nodes.length ≤ 1 then 1
  else (degree G v : ℚ) / ((G.nodes.length : ℚ) - 1)

/-- Number of walks of length exactly `d` from `s` to `t`. -/
def walks (G : Graph α) : Nat → α → α → Nat
  | 0, s, t => if s = t then 1 else 0
  | d + 1, s, t => ((neighbors G s).map (fun u => walks G d u t)).sum

/-- Hop distance from `s` to `t`: the least `d ≤ |V|` admitting a walk of
length `d`, `none` when there is none (`t` unreachable from `s`). -/
def dist (G : Graph α) (s t : α) : Option Nat :=
  (List.range (G.nodes.length + 1)).find? (fun d => decide (0 < walks G d s t))

/-- Number of shortest `s`–`t` paths (0 when `t` is unreachable). -/
def numShortestPaths (G : Graph α) (s t : α) : Nat :=
  match dist G s t with
  | none => 0
  | some d => walks G d s t

/-- The pair dependency `σ_st(v) / σ_st` of the ordered pair `(s, t)` on the
intermediate node `v` (0 for degenerate pairs and unreachable pairs). -/
def pairDependency (G : Graph α) (v s t : α) : ℚ :=
  if s = t ∨ v = s ∨ v = t then 0
  else
    match dist G s t, dist G s v, dist G v t with
    | some dst, some dsv, some dvt =>
        if dsv + dvt = dst then
          ((numShortestPaths G s v * numShortestPaths G v t : Nat) : ℚ) /
            ((numShortestPaths G s t : Nat) : ℚ)
        else 0
    | _, _, _ => 0

/-- The Brandes accumulation: total pair dependency on `v` over all ordered
source/target pairs. -/
def betweennessAccum (G : Graph α) (v : α) : ℚ :=
  (G.nodes.map (fun s => ((G.nodes.map (fun t => pairDependency G v s t)).sum))).sum

/-- `networkx.betweenness_centrality` at its default `normalized=True` on an
undirected graph: the accumulated dependency rescaled by `1/((n-1)(n-2))`
when `n > 2`, and not rescaled at all when `n ≤ 2`. -/
def betweenness_centrality (G : Graph α) (v : α) : ℚ :=
  if 2 < G.nodes.length then
    betweennessAccum G v / (((G.nodes.length : ℚ) - 1) * ((G.nodes.length : ℚ) - 2))
  else betweennessAccum G v

/-- Modelled from the spec: "Sum contributions over all sources, then divide
by 2 … to get raw betweenness. No further normalization is applied."  This is
the raw shortest-path betweenness, for comparison with
`betweenness_centrality`. -/
def betweenness_raw (G : Graph α) (v : α) : ℚ := betweennessAccum G v / 2

/-- `df.groupby('location')['alert_level'].mean()` looked up at `loc`:
`none` when `loc` has no record. -/
def locAlertLevels (df : List Record) (loc : String) : Option ℚ :=
  let vals := (df.filter (fun r => decide (r.location = loc))).map (fun r => r.alert_level)
  if vals.length = 0 then none else some (vals.sum / (vals.length : ℚ))

/-- Descending comparison by a rational key: `a` may precede `b`.  Python's
stable `sort(key=…, reverse=True)` is insertion sort by this relation. -/
def keyDesc (key : β → ℚ) (a b : β) : Prop := key b ≤ key a

instance (key : β → ℚ) (a b : β) : Decidable (keyDesc key a b) :=
  inferInstanceAs (Decidable (_ ≤ _))

/-- Descending lexicographic comparison by a `(Nat, ℚ)` key, as Python
compares tuples under `reverse=True`. -/
def pairKeyDesc (key : β → Nat × ℚ) (a b : β) : Prop :=
  (key b).1 < (key a).1 ∨ ((key b).1 = (key a).1 ∧ (key b).2 ≤ (key a).2)

instance (key : β → Nat × ℚ) (a b : β) : Decidable (pairKeyDesc key a b) :=
  inferInstanceAs (Decidable (_ ∨ _))

/-- One entry of `results['high_risk_locations']`. -/
structure RiskEntry where
  location : String
  centrality : ℚ
  alert_level : ℚ
  risk_score : ℚ
deriving DecidableEq

/-- The unsorted high-risk list, in the iteration order of
`centrality.items()` (node insertion order). -/
def highRiskBase (G : Graph String) (df : List Record) : List RiskEntry :=
  G.nodes.filterMap (fun loc =>
    match locAlertLevels df loc with
    | none => none
    | some alert =>
        let cent := degree_centrality G loc
        if (1 : ℚ) / 2 < cent * alert then
          some ⟨loc, cent, alert, cent * alert⟩
        else none)

/-- `results['high_risk_locations']` after the stable descending sort by
`risk_score`. -/
def high_risk_locations (G : Graph String) (df : List Record) : List RiskEntry :=
  List.insertionSort (keyDesc RiskEntry.risk_score) (highRiskBase G df)

/-- One entry of `results['disaster_clusters']`. -/
structure ClusterSummary where
  id : Nat
  locations : List String
  size : Nat
  avg_alert_level : ℚ
deriving DecidableEq

/-- The cluster summary built from community number `i` with member list
`comm` (`np.mean` of the members' looked-up alert levels, absent members
contributing 0). -/
def clusterOf (df : List Record) (i : Nat) (comm : List String) : ClusterSummary :=
  ⟨i, comm, comm.length,
   ((comm.map (fun l => (locAlertLevels df l).getD 0)).sum) / (comm.length : ℚ)⟩

/-- The unsorted cluster list: communities of size > 1, numbered by their
index in the community list. -/
def clustersBase (df : List Record) (communities : List (List String)) : List ClusterSummary :=
  communities.enum.filterMap (fun ic =>
    if 1 < ic.2.length then some (clusterOf df ic.1 ic.2) else none)

/-- `results['disaster_clusters']` after the stable descending sort by
`(size, avg_alert_level)`. -/
def disaster_clusters (df : List Record) (communities : List (List String)) : List ClusterSummary :=
  List.insertionSort (pairKeyDesc (fun c => (c.size, c.avg_alert_level)))
    (clustersBase df communities)

/-- One entry of `results['potential_spread_paths']`. -/
structure SpreadPathEntry where
  fromLoc : String
  toLoc : String
  betweenness : ℚ
  shared_disasters : List String
  connection_strength : Nat
deriving DecidableEq

/-- The unsorted spread-path list, in edge order. -/
def spreadBase (G : Graph String) : List SpreadPathEntry :=
  G.edges.filterMap (fun e =>
    let eb := betweenness_centrality G e.1 + betweenness_centrality G e.2.1
    if (1 : ℚ) / 10 < eb then
      some ⟨e.1, e.2.1, eb, e.2.2.disasters, e.2.2.weight⟩
    else none)

/-- `results['potential_spread_paths']` after the stable descending sort by
`betweenness`. -/
def potential_spread_paths (G : Graph String) : List SpreadPathEntry :=
  List.insertionSort (keyDesc SpreadPathEntry.betweenness) (spreadBase G)

/-- The three result lists of `analyze_disaster_spread`, parametric in the
community partition returned by the (randomised) Louvain call. -/
structure AnalysisResults where
  high_risk_locations : List RiskEntry
  disaster_clusters : List ClusterSummary
  potential_spread_paths : List SpreadPathEntry
deriving DecidableEq

/-- `analyze_disaster_spread(G, df)` with the Louvain partition supplied
explicitly. -/
def analyze_disaster_spread (G : Graph String) (df : List Record)
    (communities : List (List String)) : AnalysisResults :=
  ⟨high_risk_locations G df, disaster_clusters df communities, potential_spread_paths G⟩

/-- The report document assembled at the end of
`generate_link_analysis_report` (timestamp and image path omitted). -/
structure Report where
  locations_analyzed : Nat
  disaster_types_analyzed : List String
  high_risk_locations : List RiskEntry
  disaster_clusters : List ClusterSummary
  potential_spread_paths : List SpreadPathEntry
deriving DecidableEq

/-- `generate_link_analysis_report` either returns an error string or a
report document. -/
inductive ReportResult where
  | failure (msg : String)
  | report (r : Report)
deriving DecidableEq

/-- `generate_link_analysis_report` on a DataFrame whose records all carry
the three required fields (so the column check passes), with the Louvain
partition supplied explicitly. -/
def generate_link_analysis_report (df : List Record)
    (communities : List (List String)) : ReportResult :=
  if df.length = 0 then
    ReportResult.failure "No disaster data available for analysis."
  else
    let G := build_location_graph df
    let results := analyze_disaster_spread G df communities
    ReportResult.report
      { locations_analyzed := (uniqueFirst (df.map (fun r => r.location))).length
        disaster_types_analyzed := uniqueFirst (df.map (fun r => r.disaster_type))
        high_risk_locations := results.high_risk_locations.take 5
        disaster_clusters := results.disaster_clusters
        potential_spread_paths := results.potential_spread_paths.take 10 }

/-- The required columns absent from the DataFrame built from `rows`
(a pandas column exists iff at least one row carries the field), in the
order of the script's `required_columns` list. -/
def missingColumns (rows : List RawRecord) : List String :=
  (if rows.any (fun r => r.location.isSome) then [] else ["location"]) ++
    (if rows.any (fun r => r.disaster_type.isSome) then [] else ["disaster_type"]) ++
      (if rows.any (fun r => r.alert_level.isSome) then [] else ["alert_level"])

/-- The error string returned when required columns are missing. -/
def missingColumnsMsg (cols : List String) : String :=
  "Missing required columns: " ++ String.intercalate ", " cols

/-- Outcome of the input checks at the head of
`generate_link_analysis_report`. -/
inductive CheckResult where
  | failure (msg : String)
  | proceed (df : List RawRecord)
deriving DecidableEq

/-- The input checks of `generate_link_analysis_report` on raw rows: empty
input and the whole-DataFrame required-column check.  Analysis proceeds only
past both checks; there is no per-record path. -/
def check_required_columns (rows : List RawRecord) : CheckResult :=
  if rows.length = 0 then
    CheckResult.failure "No disaster data available for analysis."
  else if missingColumns rows = [] then CheckResult.proceed rows
  else CheckResult.failure (missingColumnsMsg (missingColumns rows))

/-- View of a fully populated record as a raw row. -/
def toRaw (r : Record) : RawRecord := ⟨some r.location, some r.disaster_type, some r.alert_level⟩

/-- Pandas elementwise equality on possibly-missing values: `NaN` compares
unequal to everything, including another `NaN`. -/
def pandasEq (a b : Option String) : Bool :=
  match a, b with
  | some x, some y => decide (x = y)
  | _, _ => false

/-- One outer-loop iteration of `build_location_graph` over raw rows.
`df['disaster_type'].unique()` keeps `NaN` as a value, but
`df[df['disaster_type'] == disaster]` compares with pandas semantics
(`pandasEq`), under which `NaN` matches no row: the `NaN` iteration has an
empty group and zero pairs, leaving the graph unchanged. -/
def processDisasterRaw (rows : List RawRecord) (G : Graph (Option String)) :
    Option String → Graph (Option String)
  | none => G
  | some s =>
      let affected :=
        uniqueFirst ((rows.filter (fun r => pandasEq r.disaster_type (some s))).map
          (fun r => r.location))
      if 1 < affected.length then (allPairs affected).foldl (processPair s) G else G

/-- `build_location_graph` over raw rows: `df['location'].unique()` keeps
`NaN` as a value (all `NaN`s collapsing to one), so a missing location
becomes a graph node of its own, and can acquire edges through the pair
loop like any other value of the per-type location list. -/
def build_location_graph_raw (rows : List RawRecord) : Graph (Option String) :=
  (uniqueFirst (rows.map (fun r => r.disaster_type))).foldl
    (processDisasterRaw rows)
    ⟨uniqueFirst (rows.map (fun r => r.location)), []⟩

/-- Membership in the key set of
`df.groupby('location')['alert_level'].mean().to_dict()` over raw rows:
`groupby` drops the `NaN` key (its default `dropna=True`), so the keys are
exactly the non-null locations carried by some row (a key whose alert
levels are all `NaN` still appears, with a `NaN` mean value). -/
def locAlertKeyRaw (rows : List RawRecord) : Option String → Bool
  | none => false
  | some s => rows.any (fun r => decide (r.location = some s))

/-- The raw rows of the C10 scenario: every required column is carried by
some row, but the second row's `location` value is missing. -/
def rowsMissingLocation : List RawRecord :=
  [⟨some "A", some "flood", some 3⟩, ⟨none, some "flood", some 4⟩]

/-- A graph is well formed when its node list has no duplicates, every edge
joins two distinct nodes of the graph, and no unordered pair carries two
edges — the shape the script's graph library guarantees. -/
def Wf (G : Graph α) : Prop :=
  G.nodes.Nodup ∧
    (∀ e ∈ G.edges, e.1 ≠ e.2.1 ∧ e.1 ∈ G.nodes ∧ e.2.1 ∈ G.nodes) ∧
      G.edges.Pairwise (fun e f => ¬ samePair e.1 e.2.1 f.1 f.2.1)

instance (G : Graph α) : Decidable (Wf G) :=
  inferInstanceAs (Decidable (_ ∧ _ ∧ _))

/-- `v` is isolated: no edge of `G` touches it. -/
def Isolated (G : Graph α) (v : α) : Prop := ∀ e ∈ G.edges, e.1 ≠ v ∧ e.2.1 ≠ v

instance (G : Graph α) (v : α) : Decidable (Isolated G v) :=
  List.decidableBAll _ _

/-- The sample record collection of the specification's scenario section. -/
def sampleDf : List Record :=
  [⟨"A", "flood", 3⟩, ⟨"B", "flood", 4⟩, ⟨"A", "earthquake", 2⟩, ⟨"C", "earthquake", 5⟩]

/-- A path graph on `n` nodes `0, 1, …, n-1`. -/
def pathGraph (n : Nat) : Graph Nat :=
  ⟨List.range n, (List.range (n - 1)).map (fun i => (i, i + 1, ⟨1, []⟩))⟩

/-! ## Basic lemmas about the helper functions -/

theorem mem_uniqueFirstAux {a : α} :
    ∀ {seen : List α} {l : List α}, a ∈ uniqueFirstAux seen l ↔ a ∈ l ∧ a ∉ seen := by
  intro seen l
  induction l generalizing seen with
  | nil => simp [uniqueFirstAux]
  | cons x xs ih =>
      rw [uniqueFirstAux]
      by_cases hx : x ∈ seen
      · rw [if_pos hx, ih]
        constructor
        · rintro ⟨h1, h2⟩
          exact ⟨List.mem_cons_of_mem _ h1, h2⟩
        · rintro ⟨h1, h2⟩
          rcases List.mem_cons.mp h1 with rfl | h1'
          · exact absurd hx h2
          · exact ⟨h1', h2⟩
      · rw [if_neg hx, List.mem_cons, ih]
        constructor
        · rintro (rfl | ⟨h1, h2⟩)
          · exact ⟨List.mem_cons_self _ _, hx⟩
          · exact ⟨List.mem_cons_of_mem _ h1, fun hs => h2 (List.mem_cons_of_mem _ hs)⟩
        · rintro ⟨h1, h2⟩
          by_cases hax : a = x
          · exact Or.inl hax
          · have h1' : a ∈ xs := by
              rcases List.mem_cons.mp h1 with rfl | h
              · exact absurd rfl hax
              · exact h
            refine Or.inr ⟨h1', fun hs => ?_⟩
            rcases List.mem_cons.mp hs with h | h
            · exact hax h
            · exact h2 h

theorem mem_uniqueFirst {a : α} {l : List α} : a ∈ uniqueFirst l ↔ a ∈ l := by
  rw [uniqueFirst, mem_uniqueFirstAux]
  simp

theorem nodup_uniqueFirstAux : ∀ (seen : List α) (l : List α), (uniqueFirstAux seen l).Nodup := by
  intro seen l
  induction l generalizing seen with
  | nil => simp [uniqueFirstAux]
  | cons x xs ih =>
      rw [uniqueFirstAux]
      by_cases hx : x ∈ seen
      · rw [if_pos hx]
        exact ih seen
      · rw [if_neg hx]
        refine List.nodup_cons.mpr ⟨fun hmem => ?_, ih (x :: seen)⟩
        exact (mem_uniqueFirstAux.mp hmem).2 (List.mem_cons_self _ _)

theorem nodup_uniqueFirst (l : List α) : (uniqueFirst l).Nodup :=
  nodup_uniqueFirstAux [] l

theorem toFinset_uniqueFirst (l : List α) : (uniqueFirst l).toFinset = l.toFinset := by
  ext a
  simp [List.mem_toFinset, mem_uniqueFirst]

theorem length_uniqueFirst_eq_card (l : List α) :
    (uniqueFirst l).length = l.toFinset.card := by
  rw [← toFinset_uniqueFirst, List.toFinset_card_of_nodup (nodup_uniqueFirst l)]

theorem length_filter_succ_le {l : List α} {p : α → Bool} {v : α}
    (hl : l.Nodup) (hv : v ∈ l) (hpv : p v = false) :
    (l.filter p).length + 1 ≤ l.length := by
  induction l with
  | nil => cases hv
  | cons x xs ih =>
      rcases List.mem_cons.mp hv with rfl | hv'
      · have := List.length_filter_le p xs
        simp [List.filter_cons, hpv]
        omega
      · have ih' := ih (List.nodup_cons.mp hl).2 hv'
        cases hpx : p x <;> simp [List.filter_cons, hpx] <;> omega

/-! ## The node set of the built graph -/

theorem nodes_updateEdge (G : Graph α) (u v : α) (d : String) :
    (updateEdge G u v d).nodes = G.nodes := rfl

theorem nodes_addEdge (G : Graph α) (u v : α) (d : String) :
    (addEdge G u v d).nodes = G.nodes := rfl

theorem nodes_processPair (d : String) (G : Graph α) (p : α × α) :
    (processPair d G p).nodes = G.nodes := by
  unfold processPair
  split <;> rfl

theorem nodes_foldl_processPair (d : String) (ps : List (α × α)) (G : Graph α) :
    (ps.foldl (processPair d) G).nodes = G.nodes := by
  induction ps generalizing G with
  | nil => rfl
  | cons p ps ih => rw [List.foldl_cons, ih, nodes_processPair]

theorem nodes_processDisaster (df : List Record) (G : Graph String) (d : String) :
    (processDisaster df G d).nodes = G.nodes := by
  simp only [processDisaster]
  split
  · exact nodes_foldl_processPair _ _ _
  · rfl

theorem nodes_foldl_processDisaster (df : List Record) (D : List String) (G : Graph String) :
    (D.foldl (processDisaster df) G).nodes = G.nodes := by
  induction D generalizing G with
  | nil => rfl
  | cons d D ih => rw [List.foldl_cons, ih, nodes_processDisaster]

theorem nodes_build_location_graph (df : List Record) :
    (build_location_graph df).nodes = uniqueFirst (df.map (fun r => r.location)) := by
  unfold build_location_graph
  rw [nodes_foldl_processDisaster]

/-! ## Claim C3: behaviour on the empty record collection -/

/-- Claim C3 counterexample: on the empty record collection the pipeline
returns the failure string "No disaster data available for analysis.", not
an empty `Report`. -/
theorem C3_counterexample :
    generate_link_analysis_report ([] : List Record) [] =
      ReportResult.failure "No disaster data available for analysis." := rfl

/-- Claim C3 (amended): on the empty record collection the pipeline returns
the failure value "No disaster data available for analysis." — an error
string in place of a `Report` — and produces no `Report` at all (in
particular, no empty `Report` with `locations_analyzed = 0`). -/
theorem C3_empty_input_returns_failure :
    (∀ communities : List (List String),
      generate_link_analysis_report ([] : List Record) communities =
        ReportResult.failure "No disaster data available for analysis.") ∧
    (∀ (communities : List (List String)) (rep : Report),
      generate_link_analysis_report ([] : List Record) communities ≠
        ReportResult.report rep) := by
  refine ⟨fun _ => rfl, fun communities rep h => ?_⟩
  simp [generate_link_analysis_report] at h

/-! ## Claim C4: degree centrality -/

/-- Claim C4 counterexample: on the one-record collection the graph has a
single node which is isolated, yet its degree centrality is 1, not 0 (the
library returns 1 for every node of a graph with at most one node). -/
theorem C4_counterexample :
    (build_location_graph [⟨"A", "flood", 3⟩]).nodes.length = 1 ∧
    Isolated (build_location_graph [⟨"A", "flood", 3⟩]) "A" ∧
    degree_centrality (build_location_graph [⟨"A", "flood", 3⟩]) "A" = 1 := by
  decide

theorem hasEdge_self_false (G : Graph α) (v : α)
    (hne : ∀ e ∈ G.edges, e.1 ≠ e.2.1) : ¬ hasEdge G v v := by
  rintro ⟨e, he, h⟩
  rcases h with ⟨h1, h2⟩ | ⟨h1, h2⟩
  · exact hne e he (h1.symm.trans h2)
  · exact hne e he (h2.symm.trans h1)

theorem neighbors_eq_nil_iff_isolated (G : Graph α) (v : α)
    (hend : ∀ e ∈ G.edges, e.1 ≠ e.2.1 ∧ e.1 ∈ G.nodes ∧ e.2.1 ∈ G.nodes) :
    neighbors G v = [] ↔ Isolated G v := by
  rw [neighbors, List.filter_eq_nil_iff]
  constructor
  · intro h e he
    constructor
    · intro h1
      have hu := (hend e he).2.2
      have : hasEdge G v e.2.1 := ⟨e, he, Or.inl ⟨h1.symm, rfl⟩⟩
      exact h e.2.1 hu (by simpa using this)
    · intro h2
      have hu := (hend e he).2.1
      have : hasEdge G v e.1 := ⟨e, he, Or.inr ⟨h2.symm, rfl⟩⟩
      exact h e.1 hu (by simpa using this)
  · intro h u _ hu
    rw [decide_eq_true_eq] at hu
    obtain ⟨e, he, hs⟩ := hu
    rcases hs with ⟨h1, _⟩ | ⟨h1, _⟩
    · exact (h e he).1 h1.symm
    · exact (h e he).2 h1.symm

/-- Claim C4 (amended): for every well-formed graph and node `v`,
`degree_centrality v = degree(v) / (|V| - 1)` when `|V| > 1` but equals 1
(not 0) when `|V| ≤ 1`; it always lies in `[0, 1]`, and on graphs with more
than one node it is 0 exactly when `v` is isolated. -/
theorem C4_degree_centrality_amended (G : Graph α) (v : α)
    (hwf : Wf G) (hv : v ∈ G.nodes) :
    (1 < G.nodes.length →
      degree_centrality G v = (degree G v : ℚ) / ((G.nodes.length : ℚ) - 1)) ∧
    (G.nodes.length ≤ 1 → degree_centrality G v = 1) ∧
    0 ≤ degree_centrality G v ∧ degree_centrality G v ≤ 1 ∧
    (1 < G.nodes.length → (degree_centrality G v = 0 ↔ Isolated G v)) := by
  obtain ⟨hnd, hend, _⟩ := hwf
  have hdeg : degree G v + 1 ≤ G.nodes.length := by
    refine length_filter_succ_le hnd hv ?_
    simp only [decide_eq_false_iff_not]
    exact hasEdge_self_false G v (fun e he => (hend e he).1)
  by_cases hn : G.nodes.length ≤ 1
  · refine ⟨fun h => absurd h (by omega), fun _ => ?_, ?_, ?_, fun h => absurd h (by omega)⟩ <;>
      simp [degree_centrality, hn]
  · push_neg at hn
    have hformula : degree_centrality G v = (degree G v : ℚ) / ((G.nodes.length : ℚ) - 1) := by
      simp [degree_centrality, Nat.not_le.mpr hn, if_neg (by omega : ¬ G.nodes.length ≤ 1)]
    have hpos : (0 : ℚ) < (G.nodes.length : ℚ) - 1 := by
      have : (2 : ℚ) ≤ (G.nodes.length : ℚ) := by exact_mod_cast hn
      linarith
    refine ⟨fun _ => hformula, fun h => absurd h (by omega), ?_, ?_, fun _ => ?_⟩
    · rw [hformula]
      positivity
    · rw [hformula, div_le_one hpos]
      have : (degree G v : ℚ) + 1 ≤ (G.nodes.length : ℚ) := by exact_mod_cast hdeg
      linarith
    · rw [hformula, div_eq_zero_iff]
      constructor
      · intro h
        rcases h with h | h
        · have hdz : degree G v = 0 := by exact_mod_cast h
          have : neighbors G v = [] := List.length_eq_zero.mp hdz
          exact (neighbors_eq_nil_iff_isolated G v hend).mp this
        · exact absurd h (by linarith)
      · intro h
        left
        have : neighbors G v = [] := (neighbors_eq_nil_iff_isolated G v hend).mpr h
        simp [degree, this]

/-- Witness for C4: the amended statement instantiated on the scenario
graph at node "B". -/
theorem C4_degree_centrality_amended_witness :
    (Wf (build_location_graph sampleDf) ∧ "B" ∈ (build_location_graph sampleDf).nodes) ∧
    ((1 < (build_location_graph sampleDf).nodes.length →
      degree_centrality (build_location_graph sampleDf) "B" =
        (degree (build_location_graph sampleDf) "B" : ℚ) /
          (((build_location_graph sampleDf).nodes.length : ℚ) - 1)) ∧
    ((build_location_graph sampleDf).nodes.length ≤ 1 →
      degree_centrality (build_location_graph sampleDf) "B" = 1) ∧
    0 ≤ degree_centrality (build_location_graph sampleDf) "B" ∧
    degree_centrality (build_location_graph sampleDf) "B" ≤ 1 ∧
    (1 < (build_location_graph sampleDf).nodes.length →
      (degree_centrality (build_location_graph sampleDf) "B" = 0 ↔
        Isolated (build_location_graph sampleDf) "B"))) :=
  ⟨⟨by decide, by decide⟩,
    C4_degree_centrality_amended (build_location_graph sampleDf) "B" (by decide) (by decide)⟩

/-! ## Claim C9: handling of records with missing required fields -/

/-- The raw rows of the C9 scenario: every record carries `location` and
`disaster_type` but none carries `alert_level`. -/
def rowsMissingAlert : List RawRecord :=
  [⟨some "A", some "flood", none⟩, ⟨some "B", some "flood", none⟩]

/-- Claim C9 counterexample: on records lacking the required `alert_level`
field the run aborts with a single column error — the pipeline does not
skip the malformed records with a recorded warning count and analyzes
nothing at all. -/
theorem C9_counterexample :
    missingColumns rowsMissingAlert = ["alert_level"] ∧
    check_required_columns rowsMissingAlert =
      CheckResult.failure "Missing required columns: alert_level" := by
  exact ⟨rfl, rfl⟩

/-- Claim C9 (amended): missing required data is handled per column and
fatally, not per record: when some required column is carried by no record
at all, `generate_link_analysis_report` stops with an error naming exactly
the absent columns (no warning count, no partial analysis); otherwise the
full unfiltered record collection proceeds to analysis, and a nonempty
collection of fully populated records always proceeds. -/
theorem C9_missing_columns_fatal (rows : List RawRecord) (hne : rows ≠ []) :
    (missingColumns rows = [] → check_required_columns rows = CheckResult.proceed rows) ∧
    (missingColumns rows ≠ [] →
      check_required_columns rows =
        CheckResult.failure (missingColumnsMsg (missingColumns rows))) ∧
    ("location" ∈ missingColumns rows ↔ ∀ r ∈ rows, r.location = none) ∧
    ("disaster_type" ∈ missingColumns rows ↔ ∀ r ∈ rows, r.disaster_type = none) ∧
    ("alert_level" ∈ missingColumns rows ↔ ∀ r ∈ rows, r.alert_level = none) ∧
    (∀ df : List Record, df ≠ [] →
      check_required_columns (df.map toRaw) = CheckResult.proceed (df.map toRaw)) := by
  have hlen : ¬ rows.length = 0 := by
    simpa [List.length_eq_zero] using hne
  have hloc : rows.any (fun r => r.location.isSome) = false ↔ ∀ r ∈ rows, r.location = none := by
    rw [List.any_eq_false]
    refine forall_congr' fun r => imp_congr_right fun _ => ?_
    rw [Bool.not_eq_true]
    cases r.location <;> simp
  have hdis : rows.any (fun r => r.disaster_type.isSome) = false ↔
      ∀ r ∈ rows, r.disaster_type = none := by
    rw [List.any_eq_false]
    refine forall_congr' fun r => imp_congr_right fun _ => ?_
    rw [Bool.not_eq_true]
    cases r.disaster_type <;> simp
  have halert : rows.any (fun r => r.alert_level.isSome) = false ↔
      ∀ r ∈ rows, r.alert_level = none := by
    rw [List.any_eq_false]
    refine forall_congr' fun r => imp_congr_right fun _ => ?_
    rw [Bool.not_eq_true]
    cases r.alert_level <;> simp
  refine ⟨?_, ?_, ?_, ?_, ?_, ?_⟩
  · intro h
    simp [check_required_columns, hlen, h]
  · intro h
    simp [check_required_columns, hlen, h]
  · rw [← hloc]
    cases h1 : rows.any (fun r => r.location.isSome) <;>
      cases h2 : rows.any (fun r => r.disaster_type.isSome) <;>
        cases h3 : rows.any (fun r => r.alert_level.isSome) <;>
          simp [missingColumns, h1, h2, h3]
  · rw [← hdis]
    cases h1 : rows.any (fun r => r.location.isSome) <;>
      cases h2 : rows.any (fun r => r.disaster_type.isSome) <;>
        cases h3 : rows.any (fun r => r.alert_level.isSome) <;>
          simp [missingColumns, h1, h2, h3]
  · rw [← halert]
    cases h1 : rows.any (fun r => r.location.isSome) <;>
      cases h2 : rows.any (fun r => r.disaster_type.isSome) <;>
        cases h3 : rows.any (fun r => r.alert_level.isSome) <;>
          simp [missingColumns, h1, h2, h3]
  · intro df hdf
    obtain ⟨r, rs, rfl⟩ := List.exists_cons_of_ne_nil hdf
    simp [check_required_columns, missingColumns, toRaw]

/-- Witness for C9: the amended statement instantiated on the rows missing
`alert_level`. -/
theorem C9_missing_columns_fatal_witness :
    rowsMissingAlert ≠ [] ∧
    ((missingColumns rowsMissingAlert = [] →
      check_required_columns rowsMissingAlert = CheckResult.proceed rowsMissingAlert) ∧
    (missingColumns rowsMissingAlert ≠ [] →
      check_required_columns rowsMissingAlert =
        CheckResult.failure (missingColumnsMsg (missingColumns rowsMissingAlert))) ∧
    ("location" ∈ missingColumns rowsMissingAlert ↔
      ∀ r ∈ rowsMissingAlert, r.location = none) ∧
    ("disaster_type" ∈ missingColumns rowsMissingAlert ↔
      ∀ r ∈ rowsMissingAlert, r.disaster_type = none) ∧
    ("alert_level" ∈ missingColumns rowsMissingAlert ↔
      ∀ r ∈ rowsMissingAlert, r.alert_level = none) ∧
    (∀ df : List Record, df ≠ [] →
      check_required_columns (df.map toRaw) = CheckResult.proceed (df.map toRaw))) :=
  ⟨by decide, C9_missing_columns_fatal rowsMissingAlert (by decide)⟩

/-! ## Claim C10: which graph nodes have a mean alert level -/

/-- On fully populated records, every node of the built graph is the
location of some record, so the per-location mean alert-level lookup
succeeds on it. -/
theorem locAlertLevels_isSome_of_mem_nodes :
    ∀ (df : List Record) (loc : String), loc ∈ (build_location_graph df).nodes →
      (locAlertLevels df loc).isSome = true := by
  intro df loc h
  rw [nodes_build_location_graph] at h
  obtain ⟨r, hr, hrl⟩ := List.mem_map.mp (mem_uniqueFirst.mp h)
  have hfil : r ∈ df.filter (fun r => decide (r.location = loc)) :=
    List.mem_filter.mpr ⟨hr, by simp [hrl]⟩
  have hne : ¬ ((df.filter (fun r => decide (r.location = loc))).map
      (fun r => r.alert_level)).length = 0 := by
    simp only [List.length_map, List.length_eq_zero]
    exact List.ne_nil_of_mem hfil
  simp only [locAlertLevels, if_neg hne, Option.isSome_some]

theorem nodes_processDisasterRaw (rows : List RawRecord) (G : Graph (Option String))
    (d : Option String) : (processDisasterRaw rows G d).nodes = G.nodes := by
  cases d with
  | none => rfl
  | some s =>
      simp only [processDisasterRaw]
      split
      · exact nodes_foldl_processPair _ _ _
      · rfl

theorem nodes_foldl_processDisasterRaw (rows : List RawRecord) (D : List (Option String))
    (G : Graph (Option String)) : (D.foldl (processDisasterRaw rows) G).nodes = G.nodes := by
  induction D generalizing G with
  | nil => rfl
  | cons d D ih => rw [List.foldl_cons, ih, nodes_processDisasterRaw]

theorem nodes_build_location_graph_raw (rows : List RawRecord) :
    (build_location_graph_raw rows).nodes = uniqueFirst (rows.map (fun r => r.location)) := by
  unfold build_location_graph_raw
  rw [nodes_foldl_processDisasterRaw]

/-- Claim C10 counterexample: a record collection carrying all three
required columns in which one row's `location` is missing.  The column
check passes, the `NaN` location is a node of the built graph — here even
a connected one, an edge endpoint — yet it is not a key of the groupby
mean table, so the membership guard `loc in loc_alert_levels` excludes it
and the cluster summariser's `.get(loc, 0)` default would be used for it. -/
theorem C10_counterexample :
    missingColumns rowsMissingLocation = [] ∧
    none ∈ (build_location_graph_raw rowsMissingLocation).nodes ∧
    hasEdge (build_location_graph_raw rowsMissingLocation) (some "A") none ∧
    locAlertKeyRaw rowsMissingLocation none = false := by
  decide

/-- Claim C10 (amended): the groupby key set admits exactly the graph nodes
whose location value is present.  A `NaN` node — possible when some record
lacks the `location` value even though the column exists — is dropped by
`groupby` and excluded by the membership guard, so the `.get(loc, 0)`
default is reachable for it; but every node carried by an actual location
value is a key, and on fully populated record collections the guard
excludes nothing and the mean lookup succeeds on every node (second
conjunct). -/
theorem C10_guard_admits_exactly_located_nodes (rows : List RawRecord) (loc : Option String)
    (h : loc ∈ (build_location_graph_raw rows).nodes) :
    (locAlertKeyRaw rows loc = true ↔ loc.isSome = true) ∧
    (∀ (df : List Record) (l : String), l ∈ (build_location_graph df).nodes →
      (locAlertLevels df l).isSome = true) := by
  constructor
  · rw [nodes_build_location_graph_raw] at h
    obtain ⟨r, hr, hrl⟩ := List.mem_map.mp (mem_uniqueFirst.mp h)
    cases loc with
    | none => simp [locAlertKeyRaw]
    | some s =>
        simp only [locAlertKeyRaw, Option.isSome_some, iff_true]
        rw [List.any_eq_true]
        exact ⟨r, hr, by simp [hrl]⟩
  · exact locAlertLevels_isSome_of_mem_nodes

/-- Witness for C10: the amended statement instantiated on the rows with
the missing location, at the located node "A". -/
theorem C10_guard_admits_exactly_located_nodes_witness :
    (some "A" ∈ (build_location_graph_raw rowsMissingLocation).nodes) ∧
    ((locAlertKeyRaw rowsMissingLocation (some "A") = true ↔
        (some "A" : Option String).isSome = true) ∧
      (∀ (df : List Record) (l : String), l ∈ (build_location_graph df).nodes →
        (locAlertLevels df l).isSome = true)) :=
  ⟨by decide,
    C10_guard_admits_exactly_located_nodes rowsMissingLocation (some "A") (by decide)⟩

/-! ## The descending sorts are total, transitive, and stable -/

instance (key : β → ℚ) : IsTotal β (keyDesc key) :=
  ⟨fun a b => le_total (key b) (key a)⟩

instance (key : β → ℚ) : IsTrans β (keyDesc key) :=
  ⟨fun _ _ _ h1 h2 => le_trans h2 h1⟩

instance (key : β → Nat × ℚ) : IsTotal β (pairKeyDesc key) := by
  refine ⟨fun a b => ?_⟩
  rcases Nat.lt_trichotomy (key a).1 (key b).1 with h | h | h
  · exact Or.inr (Or.inl h)
  · rcases le_total (key a).2 (key b).2 with h2 | h2
    · exact Or.inr (Or.inr ⟨h, h2⟩)
    · exact Or.inl (Or.inr ⟨h.symm, h2⟩)
  · exact Or.inl (Or.inl h)

instance (key : β → Nat × ℚ) : IsTrans β (pairKeyDesc key) := by
  refine ⟨fun a b c h1 h2 => ?_⟩
  rcases h1 with h1 | ⟨h1, h1'⟩ <;> rcases h2 with h2 | ⟨h2, h2'⟩
  · exact Or.inl (h2.trans h1)
  · exact Or.inl (h2 ▸ h1)
  · exact Or.inl (h1 ▸ h2)
  · exact Or.inr ⟨h2.trans h1, h2'.trans h1'⟩

/-! ## Claim C5: the high-risk location list -/

/-- Claim C5: the high-risk result contains exactly the entries of the
eligible locations — graph nodes carrying a mean alert level whose
`risk_score = degree_centrality × mean_alert_level` exceeds 0.5 — ordered
descending by `risk_score`, with ties kept in the iteration order of the
centrality table (a stable sort). -/
theorem C5_high_risk_locations (G : Graph String) (df : List Record) :
    (high_risk_locations G df).Perm (highRiskBase G df) ∧
    (∀ e : RiskEntry, e ∈ high_risk_locations G df ↔
      (e.location ∈ G.nodes ∧
       locAlertLevels df e.location = some e.alert_level ∧
       e.centrality = degree_centrality G e.location ∧
       e.risk_score = e.centrality * e.alert_level ∧
       (1 : ℚ) / 2 < e.risk_score)) ∧
    (high_risk_locations G df).Pairwise (fun a b => b.risk_score ≤ a.risk_score) ∧
    (∀ a b : RiskEntry, List.Sublist [a, b] (highRiskBase G df) →
      b.risk_score ≤ a.risk_score →
      List.Sublist [a, b] (high_risk_locations G df)) := by
  refine ⟨List.perm_insertionSort _ _, ?_, ?_, ?_⟩
  · rintro ⟨l, c, a, s⟩
    dsimp only
    rw [high_risk_locations, List.mem_insertionSort, highRiskBase, List.mem_filterMap]
    constructor
    · rintro ⟨loc, hloc, hf⟩
      rcases halert : locAlertLevels df loc with _ | alert <;> rw [halert] at hf
      · cases hf
      · dsimp only at hf
        split_ifs at hf with hth
        · simp only [Option.some.injEq, RiskEntry.mk.injEq] at hf
          obtain ⟨h1, h2, h3, h4⟩ := hf
          subst h1; subst h2; subst h3; subst h4
          exact ⟨hloc, halert, rfl, rfl, hth⟩
    · rintro ⟨hmem, halert, hcent, hrisk, hth⟩
      subst hcent
      subst hrisk
      refine ⟨l, hmem, ?_⟩
      rw [halert]
      dsimp only
      rw [if_pos hth]
  · exact List.sorted_insertionSort (keyDesc RiskEntry.risk_score) (highRiskBase G df)
  · intro a b hsub hle
    exact List.pair_sublist_insertionSort hle hsub

/-! ## Claim C6: the potential spread path list -/

/-- Claim C6: the spread-path result contains exactly one entry for each
graph edge whose endpoint betweenness sum exceeds 0.1, carrying the edge's
disaster-type set and weight unchanged, ordered descending by that sum. -/
theorem C6_potential_spread_paths (G : Graph String) :
    (potential_spread_paths G).Perm (spreadBase G) ∧
    (∀ p : SpreadPathEntry, p ∈ potential_spread_paths G ↔
      ∃ e ∈ G.edges,
        p.fromLoc = e.1 ∧ p.toLoc = e.2.1 ∧
        p.betweenness = betweenness_centrality G e.1 + betweenness_centrality G e.2.1 ∧
        p.shared_disasters = e.2.2.disasters ∧
        p.connection_strength = e.2.2.weight ∧
        (1 : ℚ) / 10 < p.betweenness) ∧
    (potential_spread_paths G).Pairwise (fun a b => b.betweenness ≤ a.betweenness) := by
  refine ⟨List.perm_insertionSort _ _, ?_, ?_⟩
  · rintro ⟨pf, pt, pb, pd, pw⟩
    dsimp only
    rw [potential_spread_paths, List.mem_insertionSort, spreadBase, List.mem_filterMap]
    constructor
    · rintro ⟨e, he, hf⟩
      dsimp only at hf
      split_ifs at hf with hth
      · simp only [Option.some.injEq, SpreadPathEntry.mk.injEq] at hf
        obtain ⟨h1, h2, h3, h4, h5⟩ := hf
        subst h1; subst h2; subst h3; subst h4; subst h5
        exact ⟨e, he, rfl, rfl, rfl, rfl, rfl, hth⟩
    · rintro ⟨e, he, h1, h2, h3, h4, h5, hth⟩
      subst h1; subst h2; subst h3; subst h4; subst h5
      refine ⟨e, he, ?_⟩
      dsimp only
      rw [if_pos hth]
  · exact List.sorted_insertionSort (keyDesc SpreadPathEntry.betweenness) (spreadBase G)

/-! ## Claim C7: report assembly -/

/-- Claim C7: on nonempty input the assembled report carries the top 5 risk
entries (a prefix of the descending risk ranking, hence itself descending),
every cluster summary of size > 1 in descending `(size, avg_alert_level)`
order, the top 10 spread-path entries in descending betweenness, the number
of distinct input locations, and the distinct input disaster types. -/
theorem C7_report_assembly (df : List Record) (communities : List (List String))
    (hne : df ≠ []) :
    ∃ rep : Report,
      generate_link_analysis_report df communities = ReportResult.report rep ∧
      rep.high_risk_locations = (high_risk_locations (build_location_graph df) df).take 5 ∧
      rep.high_risk_locations.length ≤ 5 ∧
      rep.high_risk_locations.Pairwise (fun a b => b.risk_score ≤ a.risk_score) ∧
      rep.disaster_clusters = disaster_clusters df communities ∧
      (∀ c ∈ rep.disaster_clusters, 1 < c.size) ∧
      rep.disaster_clusters.Pairwise (fun c c' =>
        c'.size < c.size ∨ (c'.size = c.size ∧ c'.avg_alert_level ≤ c.avg_alert_level)) ∧
      rep.potential_spread_paths =
        (potential_spread_paths (build_location_graph df)).take 10 ∧
      rep.potential_spread_paths.length ≤ 10 ∧
      rep.potential_spread_paths.Pairwise (fun p p' => p'.betweenness ≤ p.betweenness) ∧
      rep.locations_analyzed = (df.map (fun r => r.location)).toFinset.card ∧
      rep.disaster_types_analyzed.toFinset = (df.map (fun r => r.disaster_type)).toFinset ∧
      rep.disaster_types_analyzed.Nodup := by
  have hlen : ¬ df.length = 0 := by simpa [List.length_eq_zero] using hne
  have hgen : generate_link_analysis_report df communities = ReportResult.report
      { locations_analyzed := (uniqueFirst (df.map (fun r => r.location))).length
        disaster_types_analyzed := uniqueFirst (df.map (fun r => r.disaster_type))
        high_risk_locations := (high_risk_locations (build_location_graph df) df).take 5
        disaster_clusters := disaster_clusters df communities
        potential_spread_paths :=
          (potential_spread_paths (build_location_graph df)).take 10 } := by
    unfold generate_link_analysis_report
    rw [if_neg hlen]
    rfl
  refine ⟨_, hgen, rfl, ?_, ?_, rfl, ?_, ?_, rfl, ?_, ?_, ?_, ?_, ?_⟩
  · exact List.length_take_le _ _
  · exact ((List.sorted_insertionSort (keyDesc RiskEntry.risk_score) _).sublist
      (List.take_sublist _ _))
  · intro c hc
    simp only [disaster_clusters, List.mem_insertionSort, clustersBase,
      List.mem_filterMap] at hc
    obtain ⟨ic, _, hf⟩ := hc
    split_ifs at hf with hgt
    cases hf
    exact hgt
  · exact List.sorted_insertionSort
      (pairKeyDesc (fun c : ClusterSummary => (c.size, c.avg_alert_level))) _
  · exact List.length_take_le _ _
  · exact ((List.sorted_insertionSort (keyDesc SpreadPathEntry.betweenness) _).sublist
      (List.take_sublist _ _))
  · exact length_uniqueFirst_eq_card _
  · exact toFinset_uniqueFirst _
  · exact nodup_uniqueFirst _

/-- Witness for C7: the report assembled from the scenario collection with
the partition separating the flood pair from the earthquake location. -/
theorem C7_report_assembly_witness :
    sampleDf ≠ [] ∧
    (∃ rep : Report,
      generate_link_analysis_report sampleDf [["A", "B"], ["C"]] =
        ReportResult.report rep ∧
      rep.high_risk_locations =
        (high_risk_locations (build_location_graph sampleDf) sampleDf).take 5 ∧
      rep.high_risk_locations.length ≤ 5 ∧
      rep.high_risk_locations.Pairwise (fun a b => b.risk_score ≤ a.risk_score) ∧
      rep.disaster_clusters = disaster_clusters sampleDf [["A", "B"], ["C"]] ∧
      (∀ c ∈ rep.disaster_clusters, 1 < c.size) ∧
      rep.disaster_clusters.Pairwise (fun c c' =>
        c'.size < c.size ∨ (c'.size = c.size ∧ c'.avg_alert_level ≤ c.avg_alert_level)) ∧
      rep.potential_spread_paths =
        (potential_spread_paths (build_location_graph sampleDf)).take 10 ∧
      rep.potential_spread_paths.length ≤ 10 ∧
      rep.potential_spread_paths.Pairwise (fun p p' => p'.betweenness ≤ p.betweenness) ∧
      rep.locations_analyzed = (sampleDf.map (fun r => r.location)).toFinset.card ∧
      rep.disaster_types_analyzed.toFinset =
        (sampleDf.map (fun r => r.disaster_type)).toFinset ∧
      rep.disaster_types_analyzed.Nodup) :=
  ⟨by decide, C7_report_assembly sampleDf [["A", "B"], ["C"]] (by decide)⟩

/-! ## Claim C1: the edge weight invariant of the graph builder -/

theorem samePair_symm {u v a b : α} (h : samePair u v a b) : samePair a b u v := by
  rcases h with ⟨h1, h2⟩ | ⟨h1, h2⟩
  · exact Or.inl ⟨h1.symm, h2.symm⟩
  · exact Or.inr ⟨h2.symm, h1.symm⟩

theorem samePair_trans {u v a b x y : α}
    (h1 : samePair u v x y) (h2 : samePair a b x y) : samePair u v a b := by
  rcases h1 with ⟨e1, e2⟩ | ⟨e1, e2⟩ <;> rcases h2 with ⟨f1, f2⟩ | ⟨f1, f2⟩
  · exact Or.inl ⟨e1.trans f1.symm, e2.trans f2.symm⟩
  · exact Or.inr ⟨e1.trans f2.symm, e2.trans f1.symm⟩
  · exact Or.inr ⟨e1.trans f2.symm, e2.trans f1.symm⟩
  · exact Or.inl ⟨e1.trans f1.symm, e2.trans f2.symm⟩

theorem mem_allPairs {p : α × α} : ∀ {l : List α}, p ∈ allPairs l → p.1 ∈ l ∧ p.2 ∈ l := by
  intro l
  induction l with
  | nil => intro h; cases h
  | cons x xs ih =>
      intro h
      rw [allPairs, List.mem_append] at h
      rcases h with h | h
      · obtain ⟨y, hy, rfl⟩ := List.mem_map.mp h
        exact ⟨List.mem_cons_self _ _, List.mem_cons_of_mem _ hy⟩
      · obtain ⟨h1, h2⟩ := ih h
        exact ⟨List.mem_cons_of_mem _ h1, List.mem_cons_of_mem _ h2⟩

theorem pairwise_allPairs : ∀ {l : List α}, l.Nodup →
    (allPairs l).Pairwise (fun p q => ¬ samePair p.1 p.2 q.1 q.2) := by
  intro l
  induction l with
  | nil => intro _; exact List.Pairwise.nil
  | cons x xs ih =>
      intro hnd
      obtain ⟨hx, hnd'⟩ := List.nodup_cons.mp hnd
      rw [allPairs]
      refine List.pairwise_append.mpr ⟨?_, ih hnd', ?_⟩
      · rw [List.pairwise_map]
        refine hnd'.imp ?_
        intro a b hne hsp
        rcases hsp with ⟨_, h2⟩ | ⟨h1, h2⟩
        · exact hne h2
        · exact hne (h2.trans h1)
      · intro p hp q hq
        obtain ⟨y, hy, rfl⟩ := List.mem_map.mp hp
        obtain ⟨hq1, hq2⟩ := mem_allPairs hq
        intro hsp
        rcases hsp with ⟨h1, _⟩ | ⟨h1, _⟩ <;> dsimp only at h1
        · exact hx (by rw [h1]; exact hq1)
        · exact hx (by rw [h1]; exact hq2)

/-- Inner invariant of the graph builder: folding one disaster type `d` over
a list of pairwise-distinct location pairs preserves weight = number of
distinct disaster types, no duplicate types, nonemptiness, and a bound `Q`
on which types occur (beyond `d` itself). -/
theorem foldl_processPair_invariant (d : String) (Q : String → Prop) :
    ∀ (ps : List (α × α)) (G : Graph α),
      ps.Pairwise (fun p q => ¬ samePair p.1 p.2 q.1 q.2) →
      (∀ e ∈ G.edges,
        e.2.2.weight = e.2.2.disasters.length ∧ e.2.2.disasters.Nodup ∧
        e.2.2.disasters ≠ [] ∧
        (d ∈ e.2.2.disasters → ∀ q ∈ ps, ¬ samePair q.1 q.2 e.1 e.2.1) ∧
        (∀ x ∈ e.2.2.disasters, x = d ∨ Q x)) →
      ∀ e ∈ (ps.foldl (processPair d) G).edges,
        e.2.2.weight = e.2.2.disasters.length ∧ e.2.2.disasters.Nodup ∧
        e.2.2.disasters ≠ [] ∧
        (∀ x ∈ e.2.2.disasters, x = d ∨ Q x) := by
  intro ps
  induction ps with
  | nil =>
      intro G _ hinv e he
      obtain ⟨h1, h2, h3, _, h5⟩ := hinv e he
      exact ⟨h1, h2, h3, h5⟩
  | cons p ps ih =>
      intro G hpw hinv
      rw [List.foldl_cons]
      obtain ⟨hhead, htail⟩ := List.pairwise_cons.mp hpw
      refine ih (processPair d G p) htail ?_
      intro e he
      unfold processPair at he
      split at he
      case isTrue hEx =>
        rw [updateEdge] at he
        obtain ⟨e0, he0, rfl⟩ := List.mem_map.mp he
        obtain ⟨h1, h2, h3, h4, h5⟩ := hinv e0 he0
        by_cases hmatch : samePair p.1 p.2 e0.1 e0.2.1
        · rw [if_pos hmatch]
          have hd : d ∉ e0.2.2.disasters := by
            intro hdmem
            exact h4 hdmem p (List.mem_cons_self _ _) hmatch
          refine ⟨?_, ?_, ?_, ?_, ?_⟩
          · simp [h1, if_neg hd]
          · simp only [if_neg hd]
            rw [List.nodup_append]
            exact ⟨h2, List.nodup_singleton d, by
              intro a ha hd'
              rw [List.mem_singleton] at hd'
              subst hd'
              exact hd ha⟩
          · simp [if_neg hd]
          · intro _ q hq hsp
            have : samePair q.1 q.2 p.1 p.2 := samePair_trans hsp hmatch
            exact hhead q hq (samePair_symm this)
          · intro x hx
            simp only [if_neg hd, List.mem_append, List.mem_singleton] at hx
            rcases hx with hx | rfl
            · exact h5 x hx
            · exact Or.inl rfl
        · rw [if_neg hmatch]
          exact ⟨h1, h2, h3, fun hdm q hq => h4 hdm q (List.mem_cons_of_mem _ hq), h5⟩
      case isFalse hEx =>
        rw [addEdge] at he
        rcases List.mem_append.mp he with he0 | hnew
        · obtain ⟨h1, h2, h3, h4, h5⟩ := hinv e he0
          exact ⟨h1, h2, h3, fun hdm q hq => h4 hdm q (List.mem_cons_of_mem _ hq), h5⟩
        · rw [List.mem_singleton] at hnew
          subst hnew
          refine ⟨rfl, List.nodup_singleton d, by simp, ?_, ?_⟩
          · intro _ q hq hsp
            exact hhead q hq (samePair_symm hsp)
          · intro x hx
            rw [List.mem_singleton] at hx
            exact Or.inl hx

/-- Outer invariant of the graph builder: folding a duplicate-free list of
disaster types preserves the edge invariant, provided no type of the list
already occurs on an edge. -/
theorem foldl_processDisaster_invariant (df : List Record) :
    ∀ (D : List String) (G : Graph String),
      D.Nodup →
      (∀ e ∈ G.edges,
        e.2.2.weight = e.2.2.disasters.length ∧ e.2.2.disasters.Nodup ∧
        e.2.2.disasters ≠ [] ∧
        (∀ x ∈ e.2.2.disasters, x ∉ D)) →
      ∀ e ∈ (D.foldl (processDisaster df) G).edges,
        e.2.2.weight = e.2.2.disasters.length ∧ e.2.2.disasters.Nodup ∧
        e.2.2.disasters ≠ [] := by
  intro D
  induction D with
  | nil =>
      intro G _ hinv e he
      obtain ⟨h1, h2, h3, _⟩ := hinv e he
      exact ⟨h1, h2, h3⟩
  | cons d D ih =>
      intro G hnd hinv
      rw [List.foldl_cons]
      obtain ⟨hdD, hnd'⟩ := List.nodup_cons.mp hnd
      refine ih _ hnd' ?_
      intro e he
      simp only [processDisaster] at he
      have key : ∀ e ∈ (processDisaster df G d).edges,
          e.2.2.weight = e.2.2.disasters.length ∧ e.2.2.disasters.Nodup ∧
          e.2.2.disasters ≠ [] ∧
          (∀ x ∈ e.2.2.disasters, x = d ∨ x ∉ (d :: D)) := by
        intro e' he'
        simp only [processDisaster] at he'
        split at he'
        case isTrue h =>
          refine foldl_processPair_invariant d (fun x => x ∉ (d :: D)) _ G
            (pairwise_allPairs (nodup_uniqueFirst _)) ?_ e' he'
          intro e2 he2
          obtain ⟨h1, h2, h3, h4⟩ := hinv e2 he2
          refine ⟨h1, h2, h3, ?_, ?_⟩
          · intro hd
            exact absurd (List.mem_cons_self d D) (h4 d hd)
          · intro x hx
            exact Or.inr (h4 x hx)
        case isFalse h =>
          obtain ⟨h1, h2, h3, h4⟩ := hinv e' he'
          exact ⟨h1, h2, h3, fun x hx => Or.inr (h4 x hx)⟩
      have he' : e ∈ (processDisaster df G d).edges := by
        simp only [processDisaster]
        exact he
      obtain ⟨h1, h2, h3, h4⟩ := key e he'
      refine ⟨h1, h2, h3, ?_⟩
      intro x hx
      rcases h4 x hx with rfl | hx'
      · exact hdD
      · intro hxD
        exact hx' (List.mem_cons_of_mem _ hxD)

/-- Claim C1: after `build_location_graph`, every edge satisfies
`weight = |disasters|` with no duplicate types (so a given disaster type
contributes at most 1 to the weight of any pair) and `weight ≥ 1`. -/
theorem C1_edge_weight_invariant (df : List Record) (e : String × String × EdgeData)
    (he : e ∈ (build_location_graph df).edges) :
    e.2.2.weight = e.2.2.disasters.length ∧ 1 ≤ e.2.2.weight ∧
    e.2.2.disasters.Nodup := by
  have he' : e ∈ ((uniqueFirst (df.map (fun r => r.disaster_type))).foldl
      (processDisaster df) ⟨uniqueFirst (df.map (fun r => r.location)), []⟩).edges := he
  have h := foldl_processDisaster_invariant df
    (uniqueFirst (df.map (fun r => r.disaster_type)))
    ⟨uniqueFirst (df.map (fun r => r.location)), []⟩
    (nodup_uniqueFirst _) (by intro e2 he2; cases he2) e he'
  obtain ⟨h1, h2, h3⟩ := h
  refine ⟨h1, ?_, h2⟩
  rw [h1]
  exact List.length_pos.mpr h3

/-- The flood edge of the scenario graph, used as the C1 witness edge. -/
def sampleEdge : String × String × EdgeData := ("A", "B", ⟨1, ["flood"]⟩)

/-- Witness for C1: the flood edge of the scenario graph. -/
theorem C1_edge_weight_invariant_witness :
    sampleEdge ∈ (build_location_graph sampleDf).edges ∧
    (sampleEdge.2.2.weight = sampleEdge.2.2.disasters.length ∧
      1 ≤ sampleEdge.2.2.weight ∧ sampleEdge.2.2.disasters.Nodup) :=
  ⟨by decide, C1_edge_weight_invariant sampleDf sampleEdge (by decide)⟩

/-! ## Claim C2: betweenness centrality on path graphs -/

/-- Hop distance between two naturals (the graph distance on a path). -/
def hop (s t : Nat) : Nat := (s - t) + (t - s)

theorem sum_map_filter {M : Type} [AddCommMonoid M] (p : α → Bool) (f : α → M) :
    ∀ l : List α, ((l.filter p).map f).sum = (l.map (fun x => if p x then f x else 0)).sum := by
  intro l
  induction l with
  | nil => rfl
  | cons x xs ih =>
      by_cases hx : p x
      · simp [List.filter_cons, hx, ih]
      · simp [List.filter_cons, hx, ih]

theorem sum_map_range {M : Type} [AddCommMonoid M] (f : Nat → M) :
    ∀ n : Nat, ((List.range n).map f).sum = ∑ i in Finset.range n, f i := by
  intro n
  induction n with
  | zero => rfl
  | succ n ih =>
      rw [List.range_succ, List.map_append, List.sum_append, Finset.sum_range_succ, ih]
      simp

theorem nodes_pathGraph (n : Nat) : (pathGraph n).nodes = List.range n := rfl

theorem length_nodes_pathGraph (n : Nat) : (pathGraph n).nodes.length = n := by
  rw [nodes_pathGraph, List.length_range]

theorem hasEdge_pathGraph {n u v : Nat} :
    hasEdge (pathGraph n) u v ↔ (u + 1 = v ∧ v < n) ∨ (v + 1 = u ∧ u < n) := by
  constructor
  · rintro ⟨e, he, hsp⟩
    simp only [pathGraph, List.mem_map, List.mem_range] at he
    obtain ⟨i, hi, rfl⟩ := he
    rcases hsp with ⟨h1, h2⟩ | ⟨h1, h2⟩ <;> dsimp only at h1 h2
    · subst h1; subst h2
      exact Or.inl ⟨rfl, by omega⟩
    · subst h1; subst h2
      exact Or.inr ⟨rfl, by omega⟩
  · rintro (⟨h1, h2⟩ | ⟨h1, h2⟩)
    · refine ⟨(u, u + 1, ⟨1, []⟩), ?_, Or.inl ⟨rfl, h1.symm⟩⟩
      simp only [pathGraph, List.mem_map, List.mem_range]
      exact ⟨u, by omega, rfl⟩
    · refine ⟨(v, v + 1, ⟨1, []⟩), ?_, Or.inr ⟨h1.symm, rfl⟩⟩
      simp only [pathGraph, List.mem_map, List.mem_range]
      exact ⟨v, by omega, rfl⟩

theorem walks_pathGraph_succ (n d s t : Nat) :
    walks (pathGraph n) (d + 1) s t =
      (if 1 ≤ s ∧ s < n then walks (pathGraph n) d (s - 1) t else 0) +
      (if s + 1 < n then walks (pathGraph n) d (s + 1) t else 0) := by
  rw [walks, neighbors, nodes_pathGraph, sum_map_filter, sum_map_range]
  have hsummand : ∀ u ∈ Finset.range n,
      (if (decide (hasEdge (pathGraph n) s u)) then walks (pathGraph n) d u t else 0) =
        ((if u = s - 1 ∧ 1 ≤ s ∧ s < n then walks (pathGraph n) d u t else 0) +
          (if u = s + 1 ∧ s + 1 < n then walks (pathGraph n) d u t else 0)) := by
    intro u hu
    rw [Finset.mem_range] at hu
    by_cases h : hasEdge (pathGraph n) s u
    · rw [if_pos (by simpa using h)]
      rcases hasEdge_pathGraph.mp h with ⟨h1, h2⟩ | ⟨h1, h2⟩
      · rw [if_neg (by omega), if_pos (by omega), zero_add]
      · rw [if_pos (by omega), if_neg (by omega), add_zero]
    · rw [if_neg (by simpa using h)]
      rw [if_neg, if_neg, add_zero]
      · rintro ⟨h1, h2⟩
        exact h (hasEdge_pathGraph.mpr (Or.inl ⟨by omega, by omega⟩))
      · rintro ⟨h1, h2, h3⟩
        exact h (hasEdge_pathGraph.mpr (Or.inr ⟨by omega, h3⟩))
  rw [Finset.sum_congr rfl hsummand, Finset.sum_add_distrib]
  congr 1
  · by_cases hC : 1 ≤ s ∧ s < n
    · have hstep : ∀ u ∈ Finset.range n,
          (if u = s - 1 ∧ 1 ≤ s ∧ s < n then walks (pathGraph n) d u t else 0) =
            (if u = s - 1 then walks (pathGraph n) d u t else 0) := by
        intro u _
        by_cases hu : u = s - 1 <;> simp [hu, hC]
      rw [Finset.sum_congr rfl hstep, Finset.sum_ite_eq' (Finset.range n) (s - 1)]
      rw [if_pos (Finset.mem_range.mpr (by omega)), if_pos hC]
    · have hstep : ∀ u ∈ Finset.range n,
          (if u = s - 1 ∧ 1 ≤ s ∧ s < n then walks (pathGraph n) d u t else 0) = 0 := by
        intro u _
        exact if_neg (by tauto)
      rw [Finset.sum_congr rfl hstep, Finset.sum_const_zero, if_neg hC]
  · by_cases hC : s + 1 < n
    · have hstep : ∀ u ∈ Finset.range n,
          (if u = s + 1 ∧ s + 1 < n then walks (pathGraph n) d u t else 0) =
            (if u = s + 1 then walks (pathGraph n) d u t else 0) := by
        intro u _
        by_cases hu : u = s + 1 <;> simp [hu, hC]
      rw [Finset.sum_congr rfl hstep, Finset.sum_ite_eq' (Finset.range n) (s + 1)]
      rw [if_pos (Finset.mem_range.mpr hC), if_pos hC]
    · have hstep : ∀ u ∈ Finset.range n,
          (if u = s + 1 ∧ s + 1 < n then walks (pathGraph n) d u t else 0) = 0 := by
        intro u _
        exact if_neg (by tauto)
      rw [Finset.sum_congr rfl hstep, Finset.sum_const_zero, if_neg hC]

theorem walks_pathGraph_eq_zero {n : Nat} :
    ∀ {d s t : Nat}, d < hop s t → walks (pathGraph n) d s t = 0 := by
  intro d
  induction d with
  | zero =>
      intro s t h
      have hst : ¬ s = t := by simp only [hop] at h; omega
      rw [walks, if_neg hst]
  | succ d ih =>
      intro s t h
      rw [walks_pathGraph_succ]
      have h1 : (if 1 ≤ s ∧ s < n then walks (pathGraph n) d (s - 1) t else 0) = 0 := by
        split
        · exact ih (by simp only [hop] at h ⊢; omega)
        · rfl
      have h2 : (if s + 1 < n then walks (pathGraph n) d (s + 1) t else 0) = 0 := by
        split
        · exact ih (by simp only [hop] at h ⊢; omega)
        · rfl
      rw [h1, h2]

theorem walks_pathGraph_hop {n : Nat} :
    ∀ {k s t : Nat}, s < n → t < n → hop s t = k → walks (pathGraph n) k s t = 1 := by
  intro k
  induction k with
  | zero =>
      intro s t _ _ hk
      have hst : s = t := by simp only [hop] at hk; omega
      rw [hst, walks, if_pos rfl]
  | succ k ih =>
      intro s t hs ht hk
      rw [walks_pathGraph_succ]
      by_cases hst : s < t
      · have hs1 : s + 1 < n := by omega
        have hleft : (if 1 ≤ s ∧ s < n then walks (pathGraph n) k (s - 1) t else 0) = 0 := by
          split
          · exact walks_pathGraph_eq_zero (by simp only [hop] at hk ⊢; omega)
          · rfl
        rw [hleft, if_pos hs1, ih hs1 ht (by simp only [hop] at hk ⊢; omega), zero_add]
      · have hts : t < s := by simp only [hop] at hk; omega
        have hright : (if s + 1 < n then walks (pathGraph n) k (s + 1) t else 0) = 0 := by
          split
          · exact walks_pathGraph_eq_zero (by simp only [hop] at hk ⊢; omega)
          · rfl
        rw [hright, if_pos (by omega : 1 ≤ s ∧ s < n),
          ih (by omega) ht (by simp only [hop] at hk ⊢; omega), add_zero]

theorem find?_range'_eq_some {p : Nat → Bool} :
    ∀ (len a k : Nat), a ≤ k → k < a + len → p k = true →
      (∀ j, a ≤ j → j < k → p j = false) →
      (List.range' a len).find? p = some k := by
  intro len
  induction len with
  | zero => intro a k h1 h2 _ _; omega
  | succ len ih =>
      intro a k h1 h2 hp hbelow
      rw [List.range'_succ]
      by_cases hak : a = k
      · subst hak
        rw [List.find?_cons_of_pos _ hp]
      · have hpa : p a = false := hbelow a le_rfl (by omega)
        rw [List.find?_cons_of_neg _ (by simp [hpa])]
        exact ih (a + 1) k (by omega) (by omega) hp (fun j hj1 hj2 => hbelow j (by omega) hj2)

theorem dist_pathGraph {n s t : Nat} (hs : s < n) (ht : t < n) :
    dist (pathGraph n) s t = some (hop s t) := by
  rw [dist, length_nodes_pathGraph, List.range_eq_range']
  refine find?_range'_eq_some (n + 1) 0 (hop s t) (by omega)
    (by simp only [hop]; omega) ?_ ?_
  · rw [walks_pathGraph_hop hs ht rfl]
    simp
  · intro j _ hj
    rw [walks_pathGraph_eq_zero hj]
    simp

theorem numShortestPaths_pathGraph {n s t : Nat} (hs : s < n) (ht : t < n) :
    numShortestPaths (pathGraph n) s t = 1 := by
  rw [numShortestPaths, dist_pathGraph hs ht]
  exact walks_pathGraph_hop hs ht rfl

theorem pairDependency_pathGraph {n v s t : Nat} (hv : v < n) (hs : s < n) (ht : t < n) :
    pairDependency (pathGraph n) v s t =
      if (s < v ∧ v < t) ∨ (t < v ∧ v < s) then 1 else 0 := by
  rw [pairDependency]
  by_cases hdeg : s = t ∨ v = s ∨ v = t
  · rw [if_pos hdeg]
    symm
    rw [if_neg]
    rintro (⟨h1, h2⟩ | ⟨h1, h2⟩) <;> rcases hdeg with rfl | rfl | rfl <;> omega
  · rw [if_neg hdeg]
    rw [dist_pathGraph hs ht, dist_pathGraph hs hv, dist_pathGraph hv ht]
    dsimp only
    push_neg at hdeg
    obtain ⟨hst, hvs, hvt⟩ := hdeg
    by_cases hbet : hop s v + hop v t = hop s t
    · rw [if_pos hbet, numShortestPaths_pathGraph hs hv, numShortestPaths_pathGraph hv ht,
        numShortestPaths_pathGraph hs ht]
      symm
      rw [if_pos (by simp only [hop] at hbet; omega)]
      norm_num
    · rw [if_neg hbet]
      symm
      rw [if_neg]
      intro hcond
      apply hbet
      simp only [hop]
      rcases hcond with ⟨h1, h2⟩ | ⟨h1, h2⟩ <;> omega

theorem filter_range_lt (n v : Nat) (hv : v ≤ n) :
    (Finset.range n).filter (fun s => s < v) = Finset.range v := by
  ext x
  simp only [Finset.mem_filter, Finset.mem_range]
  omega

theorem card_filter_range_gt (n v : Nat) (hv : v < n) :
    ((Finset.range n).filter (fun s => v < s)).card = n - v - 1 := by
  have hset : (Finset.range n).filter (fun s => v < s) =
      Finset.range n \ Finset.range (v + 1) := by
    ext x
    simp only [Finset.mem_filter, Finset.mem_range, Finset.mem_sdiff]
    omega
  rw [hset, Finset.card_sdiff (Finset.range_subset.mpr (by omega)),
    Finset.card_range, Finset.card_range]
  omega

theorem betweennessAccum_pathGraph {n v : Nat} (hv : v < n) :
    betweennessAccum (pathGraph n) v = (v : ℚ) * ((n - v - 1 : Nat) : ℚ) * 2 := by
  rw [betweennessAccum, nodes_pathGraph, sum_map_range]
  have hinner : ∀ s ∈ Finset.range n,
      ((List.range n).map (fun t => pairDependency (pathGraph n) v s t)).sum =
        ∑ t in Finset.range n, pairDependency (pathGraph n) v s t :=
    fun s _ => sum_map_range _ n
  rw [Finset.sum_congr rfl hinner]
  have hpoint : ∀ s ∈ Finset.range n, ∀ t ∈ Finset.range n,
      pairDependency (pathGraph n) v s t =
        (if s < v then (1 : ℚ) else 0) * (if v < t then (1 : ℚ) else 0) +
          (if v < s then (1 : ℚ) else 0) * (if t < v then (1 : ℚ) else 0) := by
    intro s hs t ht
    rw [Finset.mem_range] at hs ht
    rw [pairDependency_pathGraph hv hs ht]
    by_cases hA : s < v ∧ v < t <;> by_cases hB : t < v ∧ v < s
    · exact absurd (lt_trans hA.1 hB.2) (lt_irrefl s)
    · rw [if_pos (Or.inl hA), if_pos hA.1, if_pos hA.2,
        if_neg (by omega : ¬ v < s), if_neg (by omega : ¬ t < v)]
      norm_num
    · rw [if_pos (Or.inr hB), if_pos hB.2, if_pos hB.1,
        if_neg (by omega : ¬ s < v), if_neg (by omega : ¬ v < t)]
      norm_num
    · rw [if_neg (by tauto)]
      rcases Classical.em (s < v) with h1 | h1 <;> rcases Classical.em (v < t) with h2 | h2 <;>
        rcases Classical.em (t < v) with h3 | h3 <;> rcases Classical.em (v < s) with h4 | h4 <;>
          simp [h1, h2, h3, h4] <;> omega
  rw [Finset.sum_congr rfl (fun s hs => Finset.sum_congr rfl (hpoint s hs))]
  have hsplit : ∀ s ∈ Finset.range n,
      (∑ t in Finset.range n,
        ((if s < v then (1 : ℚ) else 0) * (if v < t then (1 : ℚ) else 0) +
          (if v < s then (1 : ℚ) else 0) * (if t < v then (1 : ℚ) else 0))) =
        (if s < v then (1 : ℚ) else 0) * (∑ t in Finset.range n, if v < t then (1 : ℚ) else 0) +
          (if v < s then (1 : ℚ) else 0) *
            (∑ t in Finset.range n, if t < v then (1 : ℚ) else 0) := by
    intro s _
    rw [Finset.sum_add_distrib, Finset.mul_sum, Finset.mul_sum]
  rw [Finset.sum_congr rfl hsplit, Finset.sum_add_distrib]
  have hgt : (∑ t in Finset.range n, if v < t then (1 : ℚ) else 0) = ((n - v - 1 : Nat) : ℚ) := by
    rw [Finset.sum_boole, card_filter_range_gt n v hv]
  have hlt : (∑ t in Finset.range n, if t < v then (1 : ℚ) else 0) = (v : ℚ) := by
    rw [Finset.sum_boole, filter_range_lt n v (le_of_lt hv), Finset.card_range]
  have hltS : (∑ s in Finset.range n, if s < v then (1 : ℚ) else 0) = (v : ℚ) := by
    rw [Finset.sum_boole, filter_range_lt n v (le_of_lt hv), Finset.card_range]
  have hgtS : (∑ s in Finset.range n, if v < s then (1 : ℚ) else 0) = ((n - v - 1 : Nat) : ℚ) := by
    rw [Finset.sum_boole, card_filter_range_gt n v hv]
  calc (∑ s in Finset.range n,
          (if s < v then (1 : ℚ) else 0) * (∑ t in Finset.range n, if v < t then (1 : ℚ) else 0)) +
        (∑ s in Finset.range n,
          (if v < s then (1 : ℚ) else 0) * (∑ t in Finset.range n, if t < v then (1 : ℚ) else 0))
      = (∑ s in Finset.range n, if s < v then (1 : ℚ) else 0) * ((n - v - 1 : Nat) : ℚ) +
          (∑ s in Finset.range n, if v < s then (1 : ℚ) else 0) * (v : ℚ) := by
        rw [← Finset.sum_mul, ← Finset.sum_mul, hgt, hlt]
    _ = (v : ℚ) * ((n - v - 1 : Nat) : ℚ) * 2 := by
        rw [hltS, hgtS]
        ring

/-- Claim C2 counterexample: on the 4-node path graph the interior node 1
has raw shortest-path betweenness 2, but the pipeline's betweenness (the
graph library's default, normalized) assigns it 2/3 — the computed value is
not the raw value. -/
theorem C2_counterexample :
    betweenness_centrality (pathGraph 4) 1 = 2 / 3 ∧
    betweenness_raw (pathGraph 4) 1 = 2 ∧
    betweenness_centrality (pathGraph 4) 1 ≠ betweenness_raw (pathGraph 4) 1 := by
  have haccum := betweennessAccum_pathGraph (n := 4) (v := 1) (by omega)
  have h4 : ((4 - 1 - 1 : Nat) : ℚ) = 2 := by norm_num
  rw [h4] at haccum
  refine ⟨?_, ?_, ?_⟩
  · simp only [betweenness_centrality, length_nodes_pathGraph]
    rw [if_pos (by omega), haccum]
    norm_num
  · simp only [betweenness_raw]
    rw [haccum]
    norm_num
  · simp only [betweenness_centrality, betweenness_raw, length_nodes_pathGraph]
    rw [if_pos (by omega), haccum]
    norm_num

/-- Claim C2 (amended): the betweenness the pipeline computes is the
library-default normalized shortest-path betweenness — the accumulated
Brandes dependencies rescaled by `1/((n-1)(n-2))` for `n > 2`, i.e. the raw
betweenness (accumulation divided by 2) further divided by `(n-1)(n-2)/2`;
consequently, on a path graph of `n ≥ 3` nodes each interior node `v`
receives the normalized closed-form value
`2·v·(n-1-v) / ((n-1)·(n-2))`, not the raw one. -/
theorem C2_betweenness_normalized (n v : Nat) (h3 : 3 ≤ n) (h0 : 0 < v) (hvn : v + 1 < n) :
    betweenness_centrality (pathGraph n) v =
      2 * (v : ℚ) * ((n : ℚ) - 1 - (v : ℚ)) / (((n : ℚ) - 1) * ((n : ℚ) - 2)) ∧
    betweenness_centrality (pathGraph n) v =
      betweenness_raw (pathGraph n) v * 2 / (((n : ℚ) - 1) * ((n : ℚ) - 2)) := by
  have hv : v < n := by omega
  have haccum := betweennessAccum_pathGraph (n := n) (v := v) hv
  have hcast : ((n - v - 1 : Nat) : ℚ) = (n : ℚ) - (v : ℚ) - 1 := by
    have h1 : v + 1 ≤ n := by omega
    rw [Nat.sub_sub, Nat.cast_sub h1]
    push_cast
    ring
  rw [hcast] at haccum
  constructor
  · simp only [betweenness_centrality, length_nodes_pathGraph]
    rw [if_pos (by omega), haccum]
    ring
  · simp only [betweenness_centrality, betweenness_raw, length_nodes_pathGraph]
    rw [if_pos (by omega), haccum]
    ring

/-- Witness for C2: the amended statement instantiated on the 4-node path
graph at interior node 1. -/
theorem C2_betweenness_normalized_witness :
    (3 ≤ 4 ∧ 0 < 1 ∧ 1 + 1 < 4) ∧
    (betweenness_centrality (pathGraph 4) 1 =
        2 * ((1 : Nat) : ℚ) * (((4 : Nat) : ℚ) - 1 - ((1 : Nat) : ℚ)) /
          ((((4 : Nat) : ℚ) - 1) * (((4 : Nat) : ℚ) - 2)) ∧
      betweenness_centrality (pathGraph 4) 1 =
        betweenness_raw (pathGraph 4) 1 * 2 /
          ((((4 : Nat) : ℚ) - 1) * (((4 : Nat) : ℚ) - 2))) :=
  ⟨⟨by decide, by decide, by decide⟩,
    C2_betweenness_normalized 4 1 (by decide) (by decide) (by decide)⟩

end LinkAnalytics
